import Mathlib

/-!
Verification of the WireViz harness assembly engine
(src/src/wireviz/wireviz.py, function `parse`).

Strings from the Python source are modelled as lists of characters
(`Str`), Python dictionaries as association lists preserving insertion
order, and Python exceptions as an explicit `WvError` sum propagated
through `Except`.
-/

namespace WireViz

/-- Python strings, modelled as lists of characters. -/
abbrev Str := List Char

/-- Convenience conversion from Lean string literals. -/
def chars (s : String) : Str := s.data

/-- Number of occurrences of the separator character in a token
(Python `inp.count(separator)`). -/
def countSep (sep : Char) : Str → Nat
  | [] => 0
  | c :: cs => (if c = sep then 1 else 0) + countSep sep cs

/-- Split a token at the first occurrence of the separator
(Python `inp.split(separator)` restricted to the case of exactly one
occurrence, where it returns the part before and the part after). -/
def splitOnce (sep : Char) : Str → Str × Str
  | [] => ([], [])
  | c :: cs =>
    if c = sep then ([], cs)
    else
      let p := splitOnce sep cs
      (c :: p.1, p.2)

/-- Ordered association-list lookup (first binding wins), modelling
Python dictionary lookup. -/
def alookup {α : Type} : List (Str × α) → Str → Option α
  | [], _ => none
  | (k, v) :: rest, key => if k = key then some v else alookup rest key

/-- Ordered association-list update: overwrite the first binding of the
key in place, or append a new binding (Python `d[k] = v`). -/
def aupdate {α : Type} : List (Str × α) → Str → α → List (Str × α)
  | [], k, v => [(k, v)]
  | (k0, v0) :: rest, k, v =>
    if k0 = k then (k, v) :: rest else (k0, v0) :: aupdate rest k v

/-- Decimal rendering of a natural number, little worker with fuel;
models the Python f-string rendering of the auto-generation counter. -/
def natCharsGo : Nat → Nat → List Char → List Char
  | 0, _, acc => acc
  | fuel + 1, n, acc =>
    if n < 10 then Nat.digitChar n :: acc
    else natCharsGo fuel (n / 10) (Nat.digitChar (n % 10) :: acc)

/-- Decimal rendering of a natural number (Python `str(n)`). -/
def natChars (n : Nat) : List Char := natCharsGo (n + 1) n []

/-- Modelled from the spec: the reserved auto-generated-designator
prefix constant `AUTOGENERATED_PREFIX` is imported from
`wireviz.wv_dataclasses`, which is not under src/; the spec only says it
is a reserved marker guaranteed not to collide with user-chosen names. -/
def autoMark : Str := chars "__"

/-- The auto-generated designator for a template and a counter value:
Python `f"{AUTOGENERATED_PREFIX}{template}_{n}"`. -/
def autoName (t : Str) (n : Nat) : Str := autoMark ++ t ++ '_' :: natChars n

/-- The two component kinds checked by `check_type`. -/
inductive CompTypeTag : Type
  | connector
  | cable

/-- The error taxonomy.  The source raises bare `Exception`/`ValueError`
with messages; each raise site is modelled as one structured error kind,
carrying the values interpolated into the message. -/
inductive WvError : Type
  /-- raise site line 160: more than one separator in a token. -/
  | ambiguousSeparator (tok : Str)
  /-- raise site line 173: a designator rebound to a different template. -/
  | designatorConflict (designator oldTemplate newTemplate : Str)
  /-- raise site line 220: no (truthy) connection count in a set. -/
  | missingConnectionCount
  /-- raise site line 224: entries disagree on the connection count. -/
  | connectionCountMismatch
  /-- raise site line 198: component types failed to alternate. -/
  | typeAlternationViolation (designator template : Str)
      (expected actual : CompTypeTag)
  /-- raise site line 292: token matches no instance and no template. -/
  | unknownTemplate (template : Str)
  /-- Python `designators_and_templates[designator]` KeyError
  (line 272); unreachable in the pipeline but part of the model. -/
  | keyError (designator : Str)
  /-- Python `list.index(None)` ValueError in `alternate_type`
  (line 204) when the expected type was never set. -/
  | alternateUnset

end WireViz

namespace WireViz

deriving instance DecidableEq for CompTypeTag
deriving instance DecidableEq for WvError
deriving instance Repr for CompTypeTag
deriving instance Repr for WvError

/-- The mutable session state of the Designator Resolver:
`designators_and_templates` (line 115) and
`autogenerated_designators` (line 117). -/
structure ResolverState : Type where
  dat : List (Str × Str)
  auto : List (Str × Nat)
deriving DecidableEq, Repr

/-- The binding step of `resolve_designator` (lines 170-178): check for
a rebinding conflict, otherwise record or confirm the binding. -/
def resolveBind (st : ResolverState) (template designator : Str) :
    Except WvError (Str × Str × ResolverState) :=
  match alookup st.dat designator with
  | some t0 =>
    if t0 ≠ template then
      .error (.designatorConflict designator t0 template)
    else
      .ok (template, designator, st)
  | none =>
    .ok (template, designator, ⟨st.dat ++ [(designator, template)], st.auto⟩)

/-- From src/src/wireviz/wireviz.py lines 157-185, `resolve_designator`:
turns a raw token into a `(template, designator)` pair, auto-generating
a designator on an empty suffix (incrementing the per-template counter
before the conflict check) and detecting rebinding conflicts. -/
def resolve_designator (st : ResolverState) (inp : Str) (separator : Char) :
    Except WvError (Str × Str × ResolverState) :=
  if separator ∈ inp then
    if 1 < countSep separator inp then
      .error (.ambiguousSeparator inp)
    else if (splitOnce separator inp).2 = [] then
      resolveBind
        ⟨st.dat,
         aupdate st.auto (splitOnce separator inp).1
           ((alookup st.auto (splitOnce separator inp).1).getD 0 + 1)⟩
        (splitOnce separator inp).1
        (autoName (splitOnce separator inp).1
          ((alookup st.auto (splitOnce separator inp).1).getD 0 + 1))
    else
      resolveBind st (splitOnce separator inp).1 (splitOnce separator inp).2
  else
    match alookup st.dat inp with
    | some _ => .ok (inp, inp, st)
    | none => .ok (inp, inp, ⟨st.dat ++ [(inp, inp)], st.auto⟩)

/-- The value of a single-key mapping entry: either a pin-range string
such as "1-3,6", or an already flat list of pin numbers. -/
inductive PinVal : Type
  | str (s : Str)
  | nums (l : List Nat)
deriving DecidableEq, Repr

/-- Decimal value of one character, if it is a digit. -/
def digitVal? (c : Char) : Option Nat :=
  if '0' ≤ c ∧ c ≤ '9' then some (c.toNat - '0'.toNat) else none

/-- Parse a run of decimal digits. -/
def charsToNatGo : List Char → Nat → Option Nat
  | [], acc => some acc
  | c :: cs, acc =>
    match digitVal? c with
    | some d => charsToNatGo cs (acc * 10 + d)
    | none => none

/-- Parse a nonempty decimal numeral. -/
def charsToNat? : Str → Option Nat
  | [] => none
  | l => charsToNatGo l 0

/-- Split a character list on every occurrence of a separator. -/
def splitOnChar (sep : Char) : Str → List Str
  | [] => [[]]
  | c :: cs =>
    let r := splitOnChar sep cs
    if c = sep then [] :: r
    else (c :: r.headD []) :: r.tail

/-- One comma-separated item of a pin-range string: either a single
number "a" or an ascending range "a-b". -/
def expandItem (item : Str) : List Nat :=
  match splitOnChar '-' item with
  | [a] =>
    match charsToNat? a with
    | some n => [n]
    | none => []
  | [a, b] =>
    match charsToNat? a, charsToNat? b with
    | some x, some y => List.range' x (y + 1 - x)
    | _, _ => []
  | _ => []

/-- Modelled from the spec: `expand` from `wireviz.wv_utils`, which is
not under src/.  Per the spec, range syntax "a-b,c" expands to the
explicit integer sequence ("1-3,6" yields [1,2,3,6]; duplicates and
descending ranges are caller errors), and expansion is the identity on
an already flat list. -/
def expand : PinVal → List Nat
  | .str s => (splitOnChar ',' s).flatMap expandItem
  | .nums l => l

/-- One raw entry of a connection set: a bare string token, a list of
tokens, or a single-key pin-range mapping. -/
inductive Entry : Type
  | str (tok : Str)
  | list (items : List Str)
  | map (key : Str) (val : PinVal)
deriving DecidableEq, Repr

/-- The cardinality candidate of one entry (lines 210-217): a list
yields its length, a mapping the length of its expanded pin list, and a
string yields no candidate. -/
def entryCount : Entry → Option Nat
  | .list l => some l.length
  | .map _ v => some (expand v).length
  | .str _ => none

/-- Cardinality determination for one connection set (lines 208-228).
Python `not any(connectioncount)` is true exactly when every collected
candidate is zero (including the case of no candidates), and
`len(set(connectioncount)) > 1` is modelled by the length of the
deduplicated candidate list. -/
def determineCount (cs : List Entry) : Except WvError Nat :=
  if ∀ c ∈ cs.filterMap entryCount, c = 0 then
    .error .missingConnectionCount
  else if 1 < (cs.filterMap entryCount).dedup.length then
    .error .connectionCountMismatch
  else .ok ((cs.filterMap entryCount).headD 0)

/-- Phase of lines 230-233: expand each string entry to a list of n
identical copies of the token. -/
def expandStringEntry (n : Nat) : Entry → Entry
  | .str tok => .list (List.replicate n tok)
  | e => e

/-- Resolve every token of a list entry in order (lines 237-242),
replacing each raw token by its resolved designator. -/
def resolveItems (sep : Char) :
    ResolverState → List Str → Except WvError (ResolverState × List Str)
  | st, [] => .ok (st, [])
  | st, item :: rest =>
    match resolve_designator st item sep with
    | .error e => .error e
    | .ok (_, d, st1) =>
      match resolveItems sep st1 rest with
      | .error e => .error e
      | .ok (st2, ds) => .ok (st2, d :: ds)

/-- Resolve the tokens of one entry (lines 236-249); a mapping key is
resolved once and its pin value kept, a string entry passes through. -/
def resolveEntry (sep : Char) (st : ResolverState) :
    Entry → Except WvError (ResolverState × Entry)
  | .list items =>
    match resolveItems sep st items with
    | .error e => .error e
    | .ok (st1, ds) => .ok (st1, .list ds)
  | .map key v =>
    match resolve_designator st key sep with
    | .error e => .error e
    | .ok (_, d, st1) => .ok (st1, .map d v)
  | .str tok => .ok (st, .str tok)

/-- Resolution phase over a whole connection set, in entry order. -/
def resolveEntries (sep : Char) :
    ResolverState → List Entry → Except WvError (ResolverState × List Entry)
  | st, [] => .ok (st, [])
  | st, e :: rest =>
    match resolveEntry sep st e with
    | .error err => .error err
    | .ok (st1, e1) =>
      match resolveEntries sep st1 rest with
      | .error err => .error err
      | .ok (st2, es) => .ok (st2, e1 :: es)

/-- A single-reference record, Python `{designator: pin}`. -/
abbrev Ref := Str × Nat

/-- Phase of lines 252-260: expand every entry into a uniform list of
single-reference records; list entries map each copy to pin 1, mapping
entries produce one record per expanded pin.  String entries cannot
occur here any more (the code passes them through unchanged). -/
def expandPinEntry : Entry → List Ref
  | .list ds => ds.map (fun d => (d, 1))
  | .map d v => (expand v).map (fun pin => (d, pin))
  | .str _ => []

/-- The Connection-Set Normalizer (lines 208-260): cardinality
determination, string expansion, designator resolution and pin-list
expansion for one connection set. -/
def normalize_set (sep : Char) (st : ResolverState) (cs : List Entry) :
    Except WvError (ResolverState × List (List Ref)) :=
  match determineCount cs with
  | .error e => .error e
  | .ok n =>
    match resolveEntries sep st (cs.map (expandStringEntry n)) with
    | .error e => .error e
    | .ok (st1, cs2) => .ok (st1, cs2.map expandPinEntry)

/-- Open attribute bag of a template or instance. -/
abbrev Attribs := List (Str × Str)

/-- A template registry or live-instance registry, in insertion order. -/
abbrev Registry := List (Str × Attribs)

/-- A Connection record (`harness.connect` argument tuple, line 325):
optional from endpoint, cable via reference, optional to endpoint. -/
structure Connection : Type where
  fromRef : Option Ref
  via : Ref
  toRef : Option Ref
deriving DecidableEq, Repr

/-- The live harness instances and connections.  Modelled from the spec
where `wireviz.wv_harness.Harness` is concerned (not under src/):
`add_connector`/`add_cable` create one designator-keyed instance from
the template attributes, `connect` appends one Connection record. -/
structure HarnessState : Type where
  connectors : Registry
  cables : Registry
  connections : List Connection
deriving DecidableEq, Repr

/-- From lines 192-200, `check_type`: set the expected type on first use
(each connection set may start with either type), then fail if the
actual type does not match it. -/
def check_type (expected : Option CompTypeTag) (designator template : Str)
    (actual : CompTypeTag) : Except WvError CompTypeTag :=
  let e := expected.getD actual
  if actual ≠ e then
    .error (.typeAlternationViolation designator template e actual)
  else .ok e

/-- From lines 202-204, `alternate_type`: flip between connector and
cable. -/
def flipType : CompTypeTag → CompTypeTag
  | .connector => .cable
  | .cable => .connector

/-- Modelled from the spec: `harness.add_connector` (wv_harness, not
under src/) registers a new connector instance under its designator. -/
def addConnector (h : HarnessState) (d : Str) (a : Attribs) : HarnessState :=
  ⟨h.connectors ++ [(d, a)], h.cables, h.connections⟩

/-- Modelled from the spec: `harness.add_cable` (wv_harness, not under
src/) registers a new cable instance under its designator. -/
def addCable (h : HarnessState) (d : Str) (a : Attribs) : HarnessState :=
  ⟨h.connectors, h.cables ++ [(d, a)], h.connections⟩

/-- One item of the instantiate pass (lines 270-294): find or create the
instance for a designator, checking the alternation type. -/
def generate_item (tplC tplW : Registry) (dat : List (Str × Str))
    (h : HarnessState) (expected : Option CompTypeTag) (designator : Str) :
    Except WvError (HarnessState × CompTypeTag) :=
  match alookup dat designator with
  | none => .error (.keyError designator)
  | some template =>
    if (alookup h.connectors designator).isSome then
      match check_type expected designator template .connector with
      | .error e => .error e
      | .ok t => .ok (h, t)
    else
      match alookup tplC template with
      | some attribs =>
        match check_type expected designator template .connector with
        | .error e => .error e
        | .ok t => .ok (addConnector h designator attribs, t)
      | none =>
        if (alookup h.cables designator).isSome then
          match check_type expected designator template .cable with
          | .error e => .error e
          | .ok t => .ok (h, t)
        else
          match alookup tplW template with
          | some attribs =>
            match check_type expected designator template .cable with
            | .error e => .error e
            | .ok t => .ok (addCable h designator attribs, t)
          | none => .error (.unknownTemplate template)

/-- The instantiate pass over one row (lines 269-294): after the first
item of a connection set the expected type is always set. -/
def generate_row (tplC tplW : Registry) (dat : List (Str × Str)) :
    HarnessState → Option CompTypeTag → List Ref →
    Except WvError (HarnessState × Option CompTypeTag)
  | h, e, [] => .ok (h, e)
  | h, e, item :: rest =>
    match generate_item tplC tplW dat h e item.1 with
    | .error err => .error err
    | .ok (h1, t) => generate_row tplC tplW dat h1 (some t) rest

/-- The instantiate pass over all rows of one connection set
(lines 264-297), flipping the expected type after each row; flipping an
unset expected type is the Python `list.index(None)` ValueError. -/
def generate_pass (tplC tplW : Registry) (dat : List (Str × Str)) :
    HarnessState → Option CompTypeTag → List (List Ref) →
    Except WvError (HarnessState × Option CompTypeTag)
  | h, e, [] => .ok (h, e)
  | h, e, row :: rest =>
    match generate_row tplC tplW dat h e row with
    | .error err => .error err
    | .ok (h1, e1) =>
      match e1 with
      | none => .error .alternateUnset
      | some t => generate_pass tplC tplW dat h1 (some (flipType t)) rest

/-- Python `list(map(list, zip(*connection_set)))` (line 302): transpose
with truncation to the shortest row, empty on an empty argument. -/
def pyTranspose {α : Type} (m : List (List α)) : List (List α) :=
  match m with
  | [] => []
  | _ =>
    (List.range (((m.map List.length).min?).getD 0)).map
      (fun i => m.filterMap (fun row => row.get? i))

/-- Placeholder reference (never exposed: neighbour accesses are index
guarded). -/
def defaultRef : Ref := ([], 0)

/-- The Connection record emitted for the cable at chain position i of
one transposed entry (lines 309-327). -/
def mkConnection (entry : List Ref) (i : Nat) (item : Ref) : Connection :=
  ⟨if i = 0 then none else some (entry.getD (i - 1) defaultRef),
   item,
   if i = entry.length - 1 then none else some (entry.getD (i + 1) defaultRef)⟩

/-- The connect pass over one transposed entry (one parallel path,
lines 305-327): emit one Connection record per position whose designator
is a live cable. -/
def connect_pass_entry (cableDs : List Str) (entry : List Ref) :
    List Connection :=
  entry.enum.filterMap (fun p =>
    if p.2.1 ∈ cableDs then some (mkConnection entry p.1 p.2) else none)

/-- Processing of one connection set (lines 206-327): normalize,
instantiate with alternation checking, transpose and connect.  The
returned row list is the final content of the connection set inside the
caller's configuration (the transposition on line 302 rebinds only the
loop variable). -/
def process_connection_set (tplC tplW : Registry) (sep : Char)
    (rst : ResolverState) (h : HarnessState) (cs : List Entry) :
    Except WvError (ResolverState × HarnessState × List (List Ref)) :=
  match normalize_set sep rst cs with
  | .error e => .error e
  | .ok (rst1, rows) =>
    match generate_pass tplC tplW rst1.dat h none rows with
    | .error e => .error e
    | .ok (h1, _) =>
      let cableDs := h1.cables.map Prod.fst
      let conns := (pyTranspose rows).flatMap (connect_pass_entry cableDs)
      .ok (rst1, ⟨h1.connectors, h1.cables, h1.connections ++ conns⟩, rows)

/-- The main loop over all connection sets (line 206), also collecting
the final overwritten content of each set. -/
def parse_connection_sets (tplC tplW : Registry) (sep : Char) :
    ResolverState → HarnessState → List (List Entry) →
    Except WvError (ResolverState × HarnessState × List (List (List Ref)))
  | rst, h, [] => .ok (rst, h, [])
  | rst, h, cs :: rest =>
    match process_connection_set tplC tplW sep rst h cs with
    | .error e => .error e
    | .ok (rst1, h1, rows) =>
      match parse_connection_sets tplC tplW sep rst1 h1 rest with
      | .error e => .error e
      | .ok (rst2, h2, outs) => .ok (rst2, h2, rows :: outs)

/-- One BOM row: grouping key (the instance attributes without the
designator), accumulated quantity, contributing designators in order. -/
structure BomRow : Type where
  attribs : Attribs
  qty : Nat
  designators : List Str
deriving DecidableEq, Repr

/-- Modelled from the spec: the BOM Aggregator (wv_harness, not under
src/) merges one instance into the rows, grouping by attribute equality
in first-seen order. -/
def bom_add (rows : List BomRow) (d : Str) (a : Attribs) : List BomRow :=
  if rows.any (fun r => r.attribs = a) then
    rows.map (fun r =>
      if r.attribs = a then ⟨r.attribs, r.qty + 1, r.designators ++ [d]⟩
      else r)
  else rows ++ [⟨a, 1, [d]⟩]

/-- Modelled from the spec: `harness.populate_bom` (wv_harness, not
under src/) aggregates all live instances into deduplicated,
quantity-counted rows. -/
def populate_bom (h : HarnessState) : List BomRow :=
  (h.connectors ++ h.cables).foldl (fun rows p => bom_add rows p.1 p.2) []

/-- A whole harness build over the core: empty session state, all
connection sets, final BOM. -/
def run_build (tplC tplW : Registry) (sep : Char) (sets : List (List Entry)) :
    Except WvError
      (ResolverState × HarnessState × List BomRow × List (List (List Ref))) :=
  match parse_connection_sets tplC tplW sep ⟨[], []⟩ ⟨[], [], []⟩ sets with
  | .error e => .error e
  | .ok (rst, h, outs) => .ok (rst, h, populate_bom h, outs)

/-! Concrete template registries used by the scenario theorems. -/

/-- Attribute bag of the connector template DB9. -/
def db9Attribs : Attribs := [(chars "pincount", chars "9")]

/-- Attribute bag of the cable template CAB1 (3 wires). -/
def cab1Attribs : Attribs := [(chars "wirecount", chars "3")]

/-- Attribute bag of the cable template CAB2. -/
def cab2Attribs : Attribs := [(chars "wirecount", chars "2")]

/-- Connector template registry with DB9 registered. -/
def demoTplC : Registry := [(chars "DB9", db9Attribs)]

/-- Cable template registry with CAB1 and CAB2 registered. -/
def demoTplW : Registry :=
  [(chars "CAB1", cab1Attribs), (chars "CAB2", cab2Attribs)]

/-- The connection set of Scenario A. -/
def scenarioASet : List Entry :=
  [.str (chars "DB9:P1"),
   .map (chars "CAB1:") (.str (chars "1-3")),
   .str (chars "DB9:P2")]

/-- C1: with templates DB9 (connector) and CAB1 (cable, 3 wires), the
build over the single connection set ["DB9:P1", {"CAB1:": "1-3"},
"DB9:P2"] creates exactly the connector instances P1 and P2 from DB9 and
the one auto-named cable instance __CAB1_1 from CAB1, emits exactly the
three Connection records (P1,1)-(__CAB1_1,k)-(P2,1) for k = 1, 2, 3, and
the BOM groups P1 and P2 into one row of quantity 2 and the cable into
one row of quantity 1. -/
theorem scenarioA_happy_path :
    run_build demoTplC demoTplW ':' [scenarioASet] =
      .ok
        (⟨[(chars "P1", chars "DB9"),
           (chars "__CAB1_1", chars "CAB1"),
           (chars "P2", chars "DB9")],
          [(chars "CAB1", 1)]⟩,
         ⟨[(chars "P1", db9Attribs), (chars "P2", db9Attribs)],
          [(chars "__CAB1_1", cab1Attribs)],
          [⟨some (chars "P1", 1), (chars "__CAB1_1", 1), some (chars "P2", 1)⟩,
           ⟨some (chars "P1", 1), (chars "__CAB1_1", 2), some (chars "P2", 1)⟩,
           ⟨some (chars "P1", 1), (chars "__CAB1_1", 3), some (chars "P2", 1)⟩]⟩,
         [⟨db9Attribs, 2, [chars "P1", chars "P2"]⟩,
          ⟨cab1Attribs, 1, [chars "__CAB1_1"]⟩],
         [[[(chars "P1", 1), (chars "P1", 1), (chars "P1", 1)],
           [(chars "__CAB1_1", 1), (chars "__CAB1_1", 2), (chars "__CAB1_1", 3)],
           [(chars "P2", 1), (chars "P2", 1), (chars "P2", 1)]]]) := by
  rfl

/-! Cardinality determination: characterization of the three outcomes. -/

theorem one_lt_dedup_length_iff (l : List Nat) :
    1 < l.dedup.length ↔ ∃ a ∈ l, ∃ b ∈ l, a ≠ b := by
  constructor
  · intro h
    match hd : l.dedup with
    | [] => rw [hd] at h; simp at h
    | [x] => rw [hd] at h; simp at h
    | x :: y :: rest =>
      have hx : x ∈ l.dedup := by rw [hd]; exact List.mem_cons_self ..
      have hy : y ∈ l.dedup := by rw [hd]; simp
      have hnd := l.nodup_dedup
      rw [hd] at hnd
      have hxy : x ≠ y := by
        intro hc
        subst hc
        exact (List.nodup_cons.mp hnd).1 (List.mem_cons_self ..)
      exact ⟨x, List.mem_dedup.mp hx, y, List.mem_dedup.mp hy, hxy⟩
  · rintro ⟨a, ha, b, hb, hab⟩
    by_contra hle
    push_neg at hle
    have ha2 : a ∈ l.dedup := List.mem_dedup.mpr ha
    have hb2 : b ∈ l.dedup := List.mem_dedup.mpr hb
    match hd : l.dedup with
    | [] => rw [hd] at ha2; simp at ha2
    | [x] =>
      rw [hd] at ha2 hb2
      simp at ha2 hb2
      exact hab (ha2.trans hb2.symm)
    | x :: y :: rest =>
      rw [hd] at hle
      simp at hle

/-- `MissingConnectionCountError` fires exactly when every collected
candidate is zero (in particular when there is none). -/
theorem determineCount_missing_iff (cs : List Entry) :
    determineCount cs = .error .missingConnectionCount ↔
      ∀ c ∈ cs.filterMap entryCount, c = 0 := by
  unfold determineCount
  split_ifs with h1 h2
  · exact iff_of_true rfl h1
  · exact iff_of_false (by simp) h1
  · exact iff_of_false (by simp) h1

/-- `ConnectionCountMismatchError` fires exactly when some candidate is
nonzero and two candidates differ. -/
theorem determineCount_mismatch_iff (cs : List Entry) :
    determineCount cs = .error .connectionCountMismatch ↔
      (∃ c ∈ cs.filterMap entryCount, c ≠ 0) ∧
        ∃ a ∈ cs.filterMap entryCount, ∃ b ∈ cs.filterMap entryCount, a ≠ b := by
  unfold determineCount
  split_ifs with h1 h2
  · refine iff_of_false (by simp) ?_
    rintro ⟨⟨c, hc, hne⟩, -⟩
    exact hne (h1 c hc)
  · refine iff_of_true rfl ⟨?_, (one_lt_dedup_length_iff _).mp h2⟩
    push_neg at h1
    exact h1
  · refine iff_of_false (by simp) ?_
    rintro ⟨-, hpair⟩
    exact h2 ((one_lt_dedup_length_iff _).mpr hpair)

/-- The count is adopted exactly when some candidate is nonzero and all
candidates agree on it. -/
theorem determineCount_ok_iff (cs : List Entry) (n : Nat) :
    determineCount cs = .ok n ↔
      (∃ c ∈ cs.filterMap entryCount, c ≠ 0) ∧
        ∀ c ∈ cs.filterMap entryCount, c = n := by
  unfold determineCount
  split_ifs with h1 h2
  · refine iff_of_false (by simp) ?_
    rintro ⟨⟨c, hc, hne⟩, -⟩
    exact hne (h1 c hc)
  · refine iff_of_false (by simp) ?_
    rintro ⟨-, hall⟩
    obtain ⟨a, ha, b, hb, hab⟩ := (one_lt_dedup_length_iff _).mp h2
    exact hab ((hall a ha).trans (hall b hb).symm)
  · push_neg at h1
    obtain ⟨c0, hc0, hc0ne⟩ := h1
    have heq : ∀ a ∈ cs.filterMap entryCount, ∀ b ∈ cs.filterMap entryCount,
        a = b := by
      intro a ha b hb
      by_contra hab
      exact h2 ((one_lt_dedup_length_iff _).mpr ⟨a, ha, b, hb, hab⟩)
    constructor
    · intro hok
      have hn : (cs.filterMap entryCount).headD 0 = n := by
        simpa using hok
      refine ⟨⟨c0, hc0, hc0ne⟩, ?_⟩
      intro c hc
      match hl : cs.filterMap entryCount with
      | [] => rw [hl] at hc; simp at hc
      | x :: rest =>
        rw [hl] at hn
        simp at hn
        subst hn
        rw [hl] at heq hc
        exact heq c hc x (List.mem_cons_self ..)
    · rintro ⟨-, hall⟩
      have : (cs.filterMap entryCount).headD 0 = n := by
        match hl : cs.filterMap entryCount with
        | [] => rw [hl] at hc0; simp at hc0
        | x :: rest =>
          rw [hl] at hall
          simpa using hall x (List.mem_cons_self ..)
      exact congrArg Except.ok this

/-- The set of Scenario D. -/
def scenarioDSet : List Entry :=
  [.map (chars "X1") (.str (chars "1-4")),
   .map (chars "X2") (.str (chars "1-3"))]

/-- C3 (counterexample): an entry that is an empty list yields the
cardinality candidate 0, yet the set [[]] fails with the
missing-connection-count error, so the missing-count error does not fire
exactly when no entry yields a candidate. -/
theorem countZeroCandidate_missing :
    determineCount [Entry.list []] = .error .missingConnectionCount ∧
      entryCount (Entry.list []) = some 0 :=
  ⟨rfl, rfl⟩

/-- C3 (amended): cardinality determination fails with
`MissingConnectionCountError` exactly when no entry yields a nonzero
candidate; it fails with `ConnectionCountMismatchError` exactly when a
nonzero candidate exists and two candidates disagree; otherwise it
adopts the count all candidates agree on; in particular
[{"X1": "1-4"}, {"X2": "1-3"}] fails with the mismatch error. -/
theorem cardinality_determination :
    (∀ cs : List Entry,
      determineCount cs = .error .missingConnectionCount ↔
        ∀ c ∈ cs.filterMap entryCount, c = 0) ∧
    (∀ cs : List Entry,
      determineCount cs = .error .connectionCountMismatch ↔
        (∃ c ∈ cs.filterMap entryCount, c ≠ 0) ∧
          ∃ a ∈ cs.filterMap entryCount,
            ∃ b ∈ cs.filterMap entryCount, a ≠ b) ∧
    (∀ (cs : List Entry) (n : Nat),
      determineCount cs = .ok n ↔
        (∃ c ∈ cs.filterMap entryCount, c ≠ 0) ∧
          ∀ c ∈ cs.filterMap entryCount, c = n) ∧
    determineCount scenarioDSet = .error .connectionCountMismatch :=
  ⟨determineCount_missing_iff, determineCount_mismatch_iff,
    determineCount_ok_iff, by rfl⟩

/-- C9: when at least one entry yields a cardinality candidate but every
candidate equals 0, the set is rejected with the missing-count error
rather than adopting cardinality 0: the normalizer fails for every
resolver state and no count is ever adopted. -/
theorem all_zero_candidates_rejected (cs : List Entry)
    (_hne : cs.filterMap entryCount ≠ [])
    (hz : ∀ c ∈ cs.filterMap entryCount, c = 0) :
    determineCount cs = .error .missingConnectionCount ∧
      (∀ n : Nat, determineCount cs ≠ .ok n) ∧
      ∀ (sep : Char) (st : ResolverState),
        normalize_set sep st cs = .error .missingConnectionCount := by
  have hmiss : determineCount cs = .error .missingConnectionCount :=
    (determineCount_missing_iff cs).mpr hz
  refine ⟨hmiss, ?_, ?_⟩
  · intro n hok
    rw [hmiss] at hok
    simp at hok
  · intro sep st
    unfold normalize_set
    rw [hmiss]

/-- C9 witness: the connection set [[]] (one empty-list entry). -/
theorem all_zero_candidates_rejected_witness :
    determineCount [Entry.list []] = .error .missingConnectionCount ∧
      (∀ n : Nat, determineCount [Entry.list []] ≠ .ok n) ∧
      ∀ (sep : Char) (st : ResolverState),
        normalize_set sep st [Entry.list []] =
          .error .missingConnectionCount :=
  all_zero_candidates_rejected [Entry.list []] (by decide) (by decide)

/-! Association-list and token lemmas. -/

theorem alookup_cons {α : Type} (p : Str × α) (rest : List (Str × α))
    (k : Str) :
    alookup (p :: rest) k = if p.1 = k then some p.2 else alookup rest k := by
  cases p
  rfl

theorem alookup_append_of_some {α : Type} {l1 : List (Str × α)} {k : Str}
    {v : α} (h : alookup l1 k = some v) (l2 : List (Str × α)) :
    alookup (l1 ++ l2) k = some v := by
  induction l1 with
  | nil => simp [alookup] at h
  | cons p rest ih =>
    rw [alookup_cons] at h
    rw [List.cons_append, alookup_cons]
    by_cases hk : p.1 = k
    · rwa [if_pos hk] at h ⊢
    · rw [if_neg hk] at h ⊢
      exact ih h

theorem alookup_append_of_none {α : Type} {l1 : List (Str × α)} {k : Str}
    (h : alookup l1 k = none) (l2 : List (Str × α)) :
    alookup (l1 ++ l2) k = alookup l2 k := by
  induction l1 with
  | nil => rfl
  | cons p rest ih =>
    rw [alookup_cons] at h
    rw [List.cons_append, alookup_cons]
    by_cases hk : p.1 = k
    · rw [if_pos hk] at h
      exact absurd h (by simp)
    · rw [if_neg hk] at h ⊢
      exact ih h

theorem countSep_append (sep : Char) (a b : Str) :
    countSep sep (a ++ b) = countSep sep a + countSep sep b := by
  induction a with
  | nil => simp [countSep]
  | cons c cs ih =>
    simp [countSep, ih, Nat.add_assoc]

theorem countSep_eq_zero {sep : Char} {s : Str} (h : sep ∉ s) :
    countSep sep s = 0 := by
  induction s with
  | nil => rfl
  | cons c cs ih =>
    rw [List.mem_cons, not_or] at h
    rw [countSep, if_neg (fun hc => h.1 hc.symm), ih h.2]

theorem splitOnce_of_not_mem {sep : Char} {a : Str} (h : sep ∉ a) (b : Str) :
    splitOnce sep (a ++ sep :: b) = (a, b) := by
  induction a with
  | nil => simp [splitOnce]
  | cons c cs ih =>
    rw [List.mem_cons, not_or] at h
    rw [List.cons_append]
    show splitOnce sep (c :: (cs ++ sep :: b)) = (c :: cs, b)
    rw [splitOnce, if_neg (fun hc => h.1 hc.symm), ih h.2]

/-! Designator Resolver lemmas. -/

/-- What a successful binding step guarantees: the returned pair is the
requested one, the designator is bound to the template afterwards, the
auto-counters are untouched, and every pre-existing binding survives
unchanged. -/
theorem resolveBind_ok {st : ResolverState} {t d t' d' : Str}
    {st' : ResolverState} (h : resolveBind st t d = .ok (t', d', st')) :
    t' = t ∧ d' = d ∧ alookup st'.dat d = some t ∧ st'.auto = st.auto ∧
      ∀ d0 t0, alookup st.dat d0 = some t0 → alookup st'.dat d0 = some t0 := by
  unfold resolveBind at h
  split at h
  next t0 hl =>
    by_cases ht : t0 = t
    · subst ht
      rw [if_neg (by simp)] at h
      simp only [Except.ok.injEq, Prod.mk.injEq] at h
      obtain ⟨rfl, rfl, rfl⟩ := h
      exact ⟨rfl, rfl, hl, rfl, fun d0 t1 h0 => h0⟩
    · rw [if_pos ht] at h
      exact absurd h (by simp)
  next hl =>
    simp only [Except.ok.injEq, Prod.mk.injEq] at h
    obtain ⟨rfl, rfl, rfl⟩ := h
    refine ⟨rfl, rfl, ?_, rfl, ?_⟩
    · rw [alookup_append_of_none hl]
      simp [alookup]
    · intro d0 t0 h0
      exact alookup_append_of_some h0 _

/-- C4 (counterexample): resolving the auto-generating token "CAB1:"
twice is not idempotent: the second resolution returns a different
designator and increments the per-template counter. -/
theorem resolve_autogen_not_idempotent :
    resolve_designator ⟨[], []⟩ (chars "CAB1:") ':' =
      .ok (chars "CAB1", chars "__CAB1_1",
        ⟨[(chars "__CAB1_1", chars "CAB1")], [(chars "CAB1", 1)]⟩) ∧
    resolve_designator
        ⟨[(chars "__CAB1_1", chars "CAB1")], [(chars "CAB1", 1)]⟩
        (chars "CAB1:") ':' =
      .ok (chars "CAB1", chars "__CAB1_2",
        ⟨[(chars "__CAB1_1", chars "CAB1"), (chars "__CAB1_2", chars "CAB1")],
         [(chars "CAB1", 2)]⟩) ∧
    chars "__CAB1_2" ≠ chars "__CAB1_1" ∧
    ([(chars "CAB1", 2)] : List (Str × Nat)) ≠ [(chars "CAB1", 1)] :=
  ⟨rfl, rfl, by decide, by decide⟩

/-- C4 (amended): resolving a token twice in succession is idempotent
for every token that does not trigger auto-generation (that is, every
token that does not consist of a template name followed by a single
trailing separator): the second resolution returns the same
(template, designator) pair and leaves the resolver state unchanged. -/
theorem resolve_idempotent (st : ResolverState) (inp : Str) (sep : Char)
    (t d : Str) (st1 : ResolverState)
    (hshape : (splitOnce sep inp).2 ≠ [] ∨ sep ∉ inp)
    (h : resolve_designator st inp sep = .ok (t, d, st1)) :
    resolve_designator st1 inp sep = .ok (t, d, st1) := by
  unfold resolve_designator at h ⊢
  by_cases hmem : sep ∈ inp
  · rw [if_pos hmem] at h ⊢
    by_cases hcnt : 1 < countSep sep inp
    · rw [if_pos hcnt] at h
      exact absurd h (by simp)
    · rw [if_neg hcnt] at h ⊢
      have hsfx : (splitOnce sep inp).2 ≠ [] :=
        hshape.resolve_right (fun hn => hn hmem)
      rw [if_neg hsfx] at h ⊢
      obtain ⟨rfl, rfl, hbind, hauto, hpres⟩ := resolveBind_ok h
      unfold resolveBind
      rw [hbind]
      simp
  · rw [if_neg hmem] at h ⊢
    match hl : alookup st.dat inp with
    | some t0 =>
      rw [hl] at h
      simp only [Except.ok.injEq, Prod.mk.injEq] at h
      obtain ⟨rfl, rfl, rfl⟩ := h
      rw [hl]
    | none =>
      rw [hl] at h
      simp only [Except.ok.injEq, Prod.mk.injEq] at h
      obtain ⟨rfl, rfl, rfl⟩ := h
      have hsome : alookup (st.dat ++ [(inp, inp)]) inp = some inp := by
        rw [alookup_append_of_none hl]
        simp [alookup]
      simp only [hsome]

/-- C4 witness: the second resolution of "DB9:P1". -/
theorem resolve_idempotent_witness :
    resolve_designator ⟨[(chars "P1", chars "DB9")], []⟩
        (chars "DB9:P1") ':' =
      .ok (chars "DB9", chars "P1", ⟨[(chars "P1", chars "DB9")], []⟩) :=
  resolve_idempotent ⟨[], []⟩ (chars "DB9:P1") ':' (chars "DB9")
    (chars "P1") ⟨[(chars "P1", chars "DB9")], []⟩ (Or.inl (by decide))
    (by rfl)

/-- C6: a designator, once bound to a template, never rebinds: every
successful resolution preserves all existing bindings unchanged, and a
separator-bearing token that names an already-bound designator with a
different template fails with the designator-conflict error. -/
theorem binding_never_rebinds :
    (∀ (st : ResolverState) (inp : Str) (sep : Char) (t d : Str)
        (st1 : ResolverState),
      resolve_designator st inp sep = .ok (t, d, st1) →
      ∀ d0 t0, alookup st.dat d0 = some t0 → alookup st1.dat d0 = some t0) ∧
    (∀ (st : ResolverState) (sep : Char) (t2 d t1 : Str),
      sep ∉ t2 → sep ∉ d → d ≠ [] → alookup st.dat d = some t1 → t1 ≠ t2 →
      resolve_designator st (t2 ++ sep :: d) sep =
        .error (.designatorConflict d t1 t2)) := by
  constructor
  · intro st inp sep t d st1 h d0 t0 h0
    unfold resolve_designator at h
    by_cases hmem : sep ∈ inp
    · rw [if_pos hmem] at h
      by_cases hcnt : 1 < countSep sep inp
      · rw [if_pos hcnt] at h
        exact absurd h (by simp)
      · rw [if_neg hcnt] at h
        by_cases hsfx : (splitOnce sep inp).2 = []
        · rw [if_pos hsfx] at h
          exact (resolveBind_ok h).2.2.2.2 d0 t0 h0
        · rw [if_neg hsfx] at h
          exact (resolveBind_ok h).2.2.2.2 d0 t0 h0
    · rw [if_neg hmem] at h
      match hl : alookup st.dat inp with
      | some tx =>
        rw [hl] at h
        simp only [Except.ok.injEq, Prod.mk.injEq] at h
        obtain ⟨rfl, rfl, rfl⟩ := h
        exact h0
      | none =>
        rw [hl] at h
        simp only [Except.ok.injEq, Prod.mk.injEq] at h
        obtain ⟨rfl, rfl, rfl⟩ := h
        exact alookup_append_of_some h0 _
  · intro st sep t2 d t1 hm2 hmd hdne hbound hne
    have hmem : sep ∈ t2 ++ sep :: d := by simp
    have hcnt : countSep sep (t2 ++ sep :: d) = 1 := by
      rw [countSep_append, countSep_eq_zero hm2, countSep,
        if_pos rfl, countSep_eq_zero hmd]
    have hsp : splitOnce sep (t2 ++ sep :: d) = (t2, d) :=
      splitOnce_of_not_mem hm2 d
    unfold resolve_designator
    rw [if_pos hmem, if_neg (by rw [hcnt]; omega), hsp]
    rw [if_neg (by simpa using hdne)]
    unfold resolveBind
    rw [hbound]
    show (if t1 ≠ t2 then
        Except.error (WvError.designatorConflict d t1 t2)
      else Except.ok (t2, d, st)) =
      Except.error (.designatorConflict d t1 t2)
    rw [if_pos hne]

/-- C6 witness: a preserved binding after resolving "DB9:P2", and the
conflict raised by "CAB1:P1" when P1 is already bound to DB9. -/
theorem binding_never_rebinds_witness :
    alookup
        (⟨[(chars "P1", chars "DB9"), (chars "P2", chars "DB9")],
          []⟩ : ResolverState).dat (chars "P1") = some (chars "DB9") ∧
    resolve_designator ⟨[(chars "P1", chars "DB9")], []⟩
        (chars "CAB1" ++ ':' :: chars "P1") ':' =
      .error (.designatorConflict (chars "P1") (chars "DB9") (chars "CAB1")) := by
  constructor
  · exact binding_never_rebinds.1 ⟨[(chars "P1", chars "DB9")], []⟩
      (chars "DB9:P2") ':' (chars "DB9") (chars "P2")
      ⟨[(chars "P1", chars "DB9"), (chars "P2", chars "DB9")], []⟩ rfl
      (chars "P1") (chars "DB9") rfl
  · exact binding_never_rebinds.2 ⟨[(chars "P1", chars "DB9")], []⟩ ':'
      (chars "CAB1") (chars "P1") (chars "DB9") (by decide) (by decide)
      (by decide) rfl (by decide)

/-! Decimal rendering: correctness and injectivity, for the
auto-generated designator names. -/

/-- Specification-side decimal digit characters of a natural number,
most significant first. -/
def digitsRev (n : Nat) : List Char :=
  if n = 0 then ['0'] else ((Nat.digits 10 n).reverse).map Nat.digitChar

theorem natCharsGo_eq :
    ∀ (fuel n : Nat) (acc : List Char), n < fuel →
      natCharsGo fuel n acc = digitsRev n ++ acc := by
  intro fuel
  induction fuel with
  | zero => intro n acc h; omega
  | succ f ih =>
    intro n acc h
    rw [natCharsGo]
    by_cases h10 : n < 10
    · rw [if_pos h10]
      by_cases h0 : n = 0
      · subst h0; rfl
      · rw [digitsRev, if_neg h0, Nat.digits_of_lt 10 n h0 h10]
        rfl
    · rw [if_neg h10]
      have hlt : n / 10 < f := by
        have h1 : n / 10 < n := Nat.div_lt_self (by omega) (by omega)
        omega
      rw [ih (n / 10) _ hlt]
      have hq0 : n / 10 ≠ 0 := by
        have := Nat.div_pos (by omega : 10 ≤ n) (by omega : 0 < 10)
        omega
      rw [digitsRev, if_neg hq0, digitsRev, if_neg (by omega : ¬n = 0),
        Nat.digits_def' (by omega : (1 : Nat) < 10) (by omega : 0 < n)]
      simp [List.append_assoc]

theorem natChars_eq (n : Nat) : natChars n = digitsRev n := by
  have h := natCharsGo_eq (n + 1) n [] (by omega)
  simpa [natChars] using h

theorem digitChar_inj_lt :
    ∀ a < 10, ∀ b < 10, Nat.digitChar a = Nat.digitChar b → a = b := by
  decide

theorem map_digitChar_inj :
    ∀ l1 l2 : List Nat, (∀ d ∈ l1, d < 10) → (∀ d ∈ l2, d < 10) →
      l1.map Nat.digitChar = l2.map Nat.digitChar → l1 = l2 := by
  intro l1
  induction l1 with
  | nil =>
    intro l2 _ _ h
    cases l2 with
    | nil => rfl
    | cons b bs => simp at h
  | cons a as ih =>
    intro l2 h1 h2 h
    cases l2 with
    | nil => simp at h
    | cons b bs =>
      simp only [List.map_cons, List.cons.injEq] at h
      have ha : a < 10 := h1 a (List.mem_cons_self ..)
      have hb : b < 10 := h2 b (List.mem_cons_self ..)
      rw [digitChar_inj_lt a ha b hb h.1,
        ih bs (fun d hd => h1 d (List.mem_cons_of_mem _ hd))
          (fun d hd => h2 d (List.mem_cons_of_mem _ hd)) h.2]

theorem digitsRev_singleton_zero {b : Nat} (hb : b ≠ 0)
    (h : digitsRev b = ['0']) : False := by
  rw [digitsRev, if_neg hb] at h
  have hlen : (Nat.digits 10 b).length = 1 := by
    have := congrArg List.length h
    simpa using this
  match hd : Nat.digits 10 b with
  | [] => rw [hd] at hlen; simp at hlen
  | d1 :: d2 :: rest => rw [hd] at hlen; simp at hlen
  | [d] =>
    rw [hd] at h
    simp only [List.reverse_singleton, List.map_cons, List.map_nil,
      List.cons.injEq, and_true] at h
    have hdlt : d < 10 :=
      Nat.digits_lt_base (by omega) (by rw [hd]; exact List.mem_cons_self ..)
    have hd0 : d = 0 := digitChar_inj_lt d hdlt 0 (by omega) h
    have hb' := Nat.ofDigits_digits 10 b
    rw [hd] at hb'
    simp [Nat.ofDigits_cons, Nat.ofDigits_nil] at hb'
    omega

theorem digitsRev_zero : digitsRev 0 = ['0'] := rfl

theorem digitsRev_inj {a b : Nat} (h : digitsRev a = digitsRev b) : a = b := by
  by_cases ha : a = 0 <;> by_cases hb : b = 0
  · omega
  · exfalso
    subst ha
    rw [digitsRev_zero] at h
    exact digitsRev_singleton_zero hb h.symm
  · exfalso
    subst hb
    rw [digitsRev_zero] at h
    exact digitsRev_singleton_zero ha h
  · rw [digitsRev, if_neg ha, digitsRev, if_neg hb] at h
    have hrev : (Nat.digits 10 a).reverse = (Nat.digits 10 b).reverse :=
      map_digitChar_inj _ _
        (fun d hd => Nat.digits_lt_base (by omega) (List.mem_reverse.mp hd))
        (fun d hd => Nat.digits_lt_base (by omega) (List.mem_reverse.mp hd)) h
    have hd : Nat.digits 10 a = Nat.digits 10 b := by
      have := congrArg List.reverse hrev
      simpa using this
    have := congrArg (Nat.ofDigits 10) hd
    rwa [Nat.ofDigits_digits, Nat.ofDigits_digits] at this

theorem natChars_inj {a b : Nat} (h : natChars a = natChars b) : a = b := by
  rw [natChars_eq, natChars_eq] at h
  exact digitsRev_inj h

theorem autoName_inj {t : Str} {c1 c2 : Nat}
    (h : autoName t c1 = autoName t c2) : c1 = c2 := by
  unfold autoName at h
  have h1 := List.append_cancel_left h
  simp only [List.cons.injEq, true_and] at h1
  exact natChars_inj h1

theorem autoName_take {t : Str} {c : Nat} :
    (autoName t c).take autoMark.length = autoMark := by
  unfold autoName
  rw [List.append_assoc]
  exact List.take_left ..

theorem alookup_aupdate_self {α : Type} (l : List (Str × α)) (k : Str)
    (v : α) : alookup (aupdate l k v) k = some v := by
  induction l with
  | nil => simp [aupdate, alookup]
  | cons p rest ih =>
    cases p with
    | mk k0 v0 =>
      rw [aupdate]
      by_cases hk : k0 = k
      · rw [if_pos hk, alookup_cons, if_pos rfl]
      · rw [if_neg hk, alookup_cons, if_neg hk]
        exact ih

/-- Iterated resolution of the same token, collecting the returned
(template, designator) pairs in order. -/
def resolveIter (sep : Char) (tok : Str) :
    Nat → ResolverState → Except WvError (List (Str × Str) × ResolverState)
  | 0, st => .ok ([], st)
  | k + 1, st =>
    match resolve_designator st tok sep with
    | .error e => .error e
    | .ok (t, d, st1) =>
      match resolveIter sep tok k st1 with
      | .error e => .error e
      | .ok (ps, st2) => .ok ((t, d) :: ps, st2)

/-- One auto-generation step: resolving the token "t<sep>" increments
the per-template counter and binds the freshly formatted designator. -/
theorem resolve_autogen_step (st : ResolverState) (t : Str) (sep : Char)
    (hm : sep ∉ t)
    (hfree : ∀ i, (alookup st.auto t).getD 0 < i →
      alookup st.dat (autoName t i) = none) :
    resolve_designator st (t ++ [sep]) sep =
      .ok (t, autoName t ((alookup st.auto t).getD 0 + 1),
        ⟨st.dat ++ [(autoName t ((alookup st.auto t).getD 0 + 1), t)],
         aupdate st.auto t ((alookup st.auto t).getD 0 + 1)⟩) := by
  have hmem : sep ∈ t ++ [sep] := by simp
  have hcnt : countSep sep (t ++ [sep]) = 1 := by
    rw [countSep_append, countSep_eq_zero hm, countSep, if_pos rfl, countSep]
  have hsp : splitOnce sep (t ++ [sep]) = (t, []) := splitOnce_of_not_mem hm []
  unfold resolve_designator
  rw [if_pos hmem, if_neg (by rw [hcnt]; omega), hsp]
  rw [if_pos rfl]
  unfold resolveBind
  rw [show (⟨st.dat, aupdate st.auto t
      ((alookup st.auto t).getD 0 + 1)⟩ : ResolverState).dat = st.dat from rfl]
  rw [hfree ((alookup st.auto t).getD 0 + 1) (by omega)]

/-- Iterated auto-generation: k resolutions of "t<sep>" return the
designators formatted from the k successive counter values, and advance
the counter by k. -/
theorem resolveIter_autogen :
    ∀ (k : Nat) (st : ResolverState) (t : Str) (sep : Char), sep ∉ t →
      (∀ i, (alookup st.auto t).getD 0 < i →
        alookup st.dat (autoName t i) = none) →
      ∃ st2 : ResolverState,
        resolveIter sep (t ++ [sep]) k st =
          .ok ((List.range k).map
            (fun j => (t, autoName t ((alookup st.auto t).getD 0 + j + 1))),
            st2) ∧
        (alookup st2.auto t).getD 0 = (alookup st.auto t).getD 0 + k := by
  intro k
  induction k with
  | zero =>
    intro st t sep hm hfree
    exact ⟨st, by simp [resolveIter], by omega⟩
  | succ k ih =>
    intro st t sep hm hfree
    have hstep := resolve_autogen_step st t sep hm hfree
    have hc1 : (alookup (aupdate st.auto t
        ((alookup st.auto t).getD 0 + 1)) t).getD 0 =
        (alookup st.auto t).getD 0 + 1 := by
      rw [alookup_aupdate_self]
      rfl
    have hfree1 : ∀ i,
        (alookup (aupdate st.auto t ((alookup st.auto t).getD 0 + 1)) t).getD 0
            < i →
        alookup (st.dat ++ [(autoName t ((alookup st.auto t).getD 0 + 1), t)])
          (autoName t i) = none := by
      intro i hi
      rw [hc1] at hi
      rw [alookup_append_of_none (hfree i (by omega))]
      rw [alookup_cons,
        if_neg (fun he => by have := autoName_inj he; omega)]
      rfl
    obtain ⟨st2, hiter, hcnt⟩ := ih
      ⟨st.dat ++ [(autoName t ((alookup st.auto t).getD 0 + 1), t)],
       aupdate st.auto t ((alookup st.auto t).getD 0 + 1)⟩ t sep hm hfree1
    rw [hc1] at hiter hcnt
    refine ⟨st2, ?_, by omega⟩
    have hmap : (List.range (k + 1)).map
        (fun j => (t, autoName t ((alookup st.auto t).getD 0 + j + 1))) =
        (t, autoName t ((alookup st.auto t).getD 0 + 1)) ::
          (List.range k).map
            (fun j => (t, autoName t ((alookup st.auto t).getD 0 + 1 + j + 1))) := by
      rw [List.range_succ_eq_map, List.map_cons, List.map_map]
      congr 1
      apply List.map_congr_left
      intro j _
      have harith : (alookup st.auto t).getD 0 + (j + 1) + 1 =
          (alookup st.auto t).getD 0 + 1 + j + 1 := by omega
      simp only [Function.comp_apply, harith]
    rw [resolveIter, hmap]
    split
    next e heq =>
      rw [hstep] at heq
      exact absurd heq (by simp)
    next t1 d1 st1 heq =>
      rw [hstep] at heq
      simp only [Except.ok.injEq, Prod.mk.injEq] at heq
      obtain ⟨rfl, rfl, rfl⟩ := heq
      split
      next e heq2 =>
        rw [hiter] at heq2
        exact absurd heq2 (by simp)
      next ps st2x heq2 =>
        rw [hiter] at heq2
        simp only [Except.ok.injEq, Prod.mk.injEq] at heq2
        obtain ⟨rfl, rfl⟩ := heq2
        rfl

/-- C7: auto-generated designators within one build are exactly
`<reserved-mark><template>_<sequence>` with sequence numbers starting at
1 and strictly increasing in generation order; they are pairwise
distinct per template, and never collide with a user-chosen designator
that does not start with the reserved marker. -/
theorem autogen_designators (t : Str) (sep : Char) (st : ResolverState)
    (hm : sep ∉ t)
    (hc0 : (alookup st.auto t).getD 0 = 0)
    (hfree : ∀ i, 0 < i → alookup st.dat (autoName t i) = none) :
    (∀ k, ∃ st2 : ResolverState,
      resolveIter sep (t ++ [sep]) k st =
        .ok ((List.range k).map (fun j => (t, autoName t (j + 1))), st2) ∧
      (alookup st2.auto t).getD 0 = k) ∧
    (∀ c1 c2 : Nat, c1 ≠ c2 → autoName t c1 ≠ autoName t c2) ∧
    (∀ (d : Str) (c : Nat), d.take autoMark.length ≠ autoMark →
      d ≠ autoName t c) := by
  refine ⟨?_, ?_, ?_⟩
  · intro k
    obtain ⟨st2, hiter, hcnt⟩ := resolveIter_autogen k st t sep hm
      (by rw [hc0]; exact hfree)
    rw [hc0] at hiter hcnt
    refine ⟨st2, ?_, by omega⟩
    have hmap : (List.range k).map
        (fun j => (t, autoName t (0 + j + 1))) =
        (List.range k).map (fun j => (t, autoName t (j + 1))) :=
      List.map_congr_left (fun j _ => by rw [Nat.zero_add])
    rw [hiter, hmap]
  · intro c1 c2 hne he
    exact hne (autoName_inj he)
  · intro d c hmark he
    rw [he] at hmark
    exact hmark autoName_take

/-- C7 witness: two auto-generations for template CAB1 from a fresh
session, giving __CAB1_1 then __CAB1_2, distinct, with the counter at 2;
and no collision with the user-chosen name "CAB1_1". -/
theorem autogen_designators_witness :
    (∃ st2 : ResolverState,
      resolveIter ':' (chars "CAB1" ++ [':']) 2 ⟨[], []⟩ =
        .ok ([(chars "CAB1", autoName (chars "CAB1") 1),
              (chars "CAB1", autoName (chars "CAB1") 2)], st2) ∧
      (alookup st2.auto (chars "CAB1")).getD 0 = 2) ∧
    autoName (chars "CAB1") 1 ≠ autoName (chars "CAB1") 2 ∧
    chars "CAB1_1" ≠ autoName (chars "CAB1") 1 := by
  have h := autogen_designators (chars "CAB1") ':' ⟨[], []⟩ (by decide)
    (by rfl) (fun i _ => rfl)
  refine ⟨?_, h.2.1 1 2 (by omega), h.2.2 (chars "CAB1_1") 1 (by decide)⟩
  obtain ⟨st2, h1, h2⟩ := h.1 2
  refine ⟨st2, ?_, h2⟩
  rw [h1]
  congr 1

/-! Normalization: the rectangular-matrix shape of a normalized set. -/

/-- The shape of one normalized row against its original entry: exactly
n single-reference records; records from string or list entries carry
pin 1, records from a mapping entry carry the expanded pins of its
value, all for one designator. -/
def entryRowMatch (n : Nat) : Entry → List Ref → Prop
  | .str _, row => row.length = n ∧ ∀ x ∈ row, x.2 = 1
  | .list _, row => row.length = n ∧ ∀ x ∈ row, x.2 = 1
  | .map _ v, row =>
    row.length = n ∧ ∃ d, row = (expand v).map (fun p => (d, p))

/-- All rows of a normalized set match their entries, in original entry
order. -/
def rowsMatch (n : Nat) : List Entry → List (List Ref) → Prop
  | [], rows => rows = []
  | e :: es, rows =>
    match rows with
    | [] => False
    | row :: rest => entryRowMatch n e row ∧ rowsMatch n es rest

/-- Length condition an entry must satisfy after string expansion. -/
def entryLenOk (n : Nat) : Entry → Prop
  | .str _ => False
  | .list l => l.length = n
  | .map _ v => (expand v).length = n

theorem resolveItems_length {sep : Char} :
    ∀ {st : ResolverState} {items : List Str} {st1 : ResolverState}
      {ds : List Str},
      resolveItems sep st items = .ok (st1, ds) → ds.length = items.length := by
  intro st items
  induction items generalizing st with
  | nil =>
    intro st1 ds h
    rw [resolveItems] at h
    simp only [Except.ok.injEq, Prod.mk.injEq] at h
    rw [← h.2]
  | cons it rest ih =>
    intro st1 ds h
    rw [resolveItems] at h
    split at h
    · exact absurd h (by simp)
    · split at h
      · exact absurd h (by simp)
      · next st2 ds2 heq =>
        simp only [Except.ok.injEq, Prod.mk.injEq] at h
        obtain ⟨rfl, rfl⟩ := h
        simp [ih heq]

theorem expandString_lenOk (n : Nat) (cs : List Entry)
    (hall : ∀ c ∈ cs.filterMap entryCount, c = n) :
    ∀ e ∈ cs.map (expandStringEntry n), entryLenOk n e := by
  intro e he
  rw [List.mem_map] at he
  obtain ⟨e0, he0, rfl⟩ := he
  match e0 with
  | .str tok => simp [expandStringEntry, entryLenOk]
  | .list l =>
    have hc := hall l.length (List.mem_filterMap.mpr ⟨.list l, he0, rfl⟩)
    simpa [expandStringEntry, entryLenOk] using hc
  | .map k v =>
    have hc := hall (expand v).length
      (List.mem_filterMap.mpr ⟨.map k v, he0, rfl⟩)
    simpa [expandStringEntry, entryLenOk] using hc

theorem resolveEntries_rowsMatch {sep : Char} (n : Nat) :
    ∀ (cs1 : List Entry) (st st2 : ResolverState) (cs2 : List Entry),
      resolveEntries sep st cs1 = .ok (st2, cs2) →
      (∀ e ∈ cs1, entryLenOk n e) →
      rowsMatch n cs1 (cs2.map expandPinEntry) ∧ cs2.length = cs1.length := by
  intro cs1
  induction cs1 with
  | nil =>
    intro st st2 cs2 h hlen
    rw [resolveEntries] at h
    simp only [Except.ok.injEq, Prod.mk.injEq] at h
    obtain ⟨rfl, rfl⟩ := h
    exact ⟨rfl, rfl⟩
  | cons e es ih =>
    intro st st2 cs2 h hlen
    rw [resolveEntries] at h
    split at h
    · exact absurd h (by simp)
    · next st1 e1 heq1 =>
      split at h
      · exact absurd h (by simp)
      · next stx es2 heq2 =>
        simp only [Except.ok.injEq, Prod.mk.injEq] at h
        obtain ⟨rfl, rfl⟩ := h
        obtain ⟨hmatch, hlen2⟩ := ih st1 stx es2 heq2
          (fun e2 he2 => hlen e2 (List.mem_cons_of_mem _ he2))
        have hhead := hlen e (List.mem_cons_self ..)
        refine ⟨⟨?_, hmatch⟩, by simp [hlen2]⟩
        match e with
        | .str tok => exact absurd hhead (by simp [entryLenOk])
        | .list l =>
          rw [resolveEntry] at heq1
          split at heq1
          · exact absurd heq1 (by simp)
          · next stl ds heql =>
            simp only [Except.ok.injEq, Prod.mk.injEq] at heq1
            obtain ⟨rfl, rfl⟩ := heq1
            have hds : ds.length = l.length := resolveItems_length heql
            refine ⟨?_, ?_⟩
            · simp [expandPinEntry, hds]
              exact hhead
            · intro x hx
              rw [expandPinEntry, List.mem_map] at hx
              obtain ⟨d, -, rfl⟩ := hx
              rfl
        | .map k v =>
          rw [resolveEntry] at heq1
          split at heq1
          · exact absurd heq1 (by simp)
          · next td d stm heqm =>
            simp only [Except.ok.injEq, Prod.mk.injEq] at heq1
            obtain ⟨rfl, rfl⟩ := heq1
            exact ⟨by simpa [expandPinEntry] using hhead,
              d, rfl⟩

theorem rowsMatch_expandString (n : Nat) :
    ∀ (cs : List Entry) (rows : List (List Ref)),
      rowsMatch n (cs.map (expandStringEntry n)) rows → rowsMatch n cs rows := by
  intro cs
  induction cs with
  | nil => intro rows h; exact h
  | cons e es ih =>
    intro rows h
    rw [List.map_cons] at h
    match rows with
    | [] => exact h.elim
    | row :: rest =>
      obtain ⟨hhead, htail⟩ := h
      refine ⟨?_, ih rest htail⟩
      match e with
      | .str tok => exact hhead
      | .list l => exact hhead
      | .map k v => exact hhead

/-- C5: for every connection set with an agreed cardinality n, the
normalizer produces one row per original entry in order, each row being
a list of exactly n single-reference records; rows from string and list
entries map every record to pin 1, and a row from a mapping entry maps
one resolved designator to the expanded pin numbers of its value. -/
theorem normalized_shape (sep : Char) (st : ResolverState) (cs : List Entry)
    (st1 : ResolverState) (rows : List (List Ref))
    (h : normalize_set sep st cs = .ok (st1, rows)) :
    ∃ n, determineCount cs = .ok n ∧ rows.length = cs.length ∧
      rowsMatch n cs rows := by
  unfold normalize_set at h
  split at h
  · exact absurd h (by simp)
  · next n hn =>
    split at h
    · exact absurd h (by simp)
    · next st2 cs2 heq =>
      simp only [Except.ok.injEq, Prod.mk.injEq] at h
      obtain ⟨rfl, rfl⟩ := h
      have hall := ((determineCount_ok_iff cs n).mp hn).2
      obtain ⟨hmatch, hlen⟩ := resolveEntries_rowsMatch n
        (cs.map (expandStringEntry n)) st st2 cs2 heq
        (expandString_lenOk n cs hall)
      refine ⟨n, hn, ?_, rowsMatch_expandString n cs _ hmatch⟩
      rw [List.length_map, hlen, List.length_map]

/-- C5 witness: the normalized Scenario A connection set. -/
theorem normalized_shape_witness :
    ∃ n, determineCount scenarioASet = .ok n ∧
      ([[(chars "P1", 1), (chars "P1", 1), (chars "P1", 1)],
        [(chars "__CAB1_1", 1), (chars "__CAB1_1", 2), (chars "__CAB1_1", 3)],
        [(chars "P2", 1), (chars "P2", 1), (chars "P2", 1)]] :
          List (List Ref)).length = scenarioASet.length ∧
      rowsMatch n scenarioASet
        [[(chars "P1", 1), (chars "P1", 1), (chars "P1", 1)],
         [(chars "__CAB1_1", 1), (chars "__CAB1_1", 2), (chars "__CAB1_1", 3)],
         [(chars "P2", 1), (chars "P2", 1), (chars "P2", 1)]] :=
  normalized_shape ':' ⟨[], []⟩ scenarioASet
    ⟨[(chars "P1", chars "DB9"), (chars "__CAB1_1", chars "CAB1"),
      (chars "P2", chars "DB9")], [(chars "CAB1", 1)]⟩
    [[(chars "P1", 1), (chars "P1", 1), (chars "P1", 1)],
     [(chars "__CAB1_1", 1), (chars "__CAB1_1", 2), (chars "__CAB1_1", 3)],
     [(chars "P2", 1), (chars "P2", 1), (chars "P2", 1)]] (by rfl)

/-! The instantiate pass: strict connector/cable alternation. -/

/-- The expected type after i flips. -/
def flipIter : Nat → CompTypeTag → CompTypeTag
  | 0, t => t
  | i + 1, t => flipIter i (flipType t)

theorem check_type_none_ok (d t : Str) (a : CompTypeTag) :
    check_type none d t a = .ok a := by
  unfold check_type
  simp

theorem check_type_some_iff (e : CompTypeTag) (d t : Str)
    (a x : CompTypeTag) :
    check_type (some e) d t a = .ok x ↔ a = e ∧ x = e := by
  unfold check_type
  by_cases hae : a = e
  · subst hae
    simp [eq_comm]
  · simp [hae]

theorem check_type_some_mismatch (e : CompTypeTag) (d t : Str)
    (a : CompTypeTag) (h : a ≠ e) :
    check_type (some e) d t a =
      .error (.typeAlternationViolation d t e a) := by
  unfold check_type
  simp [h]

/-- A successfully checked item never changes a set expected type. -/
theorem generate_item_some_expected {tplC tplW : Registry}
    {dat : List (Str × Str)} {h : HarnessState} {e : CompTypeTag} {d : Str}
    {h1 : HarnessState} {t : CompTypeTag}
    (hok : generate_item tplC tplW dat h (some e) d = .ok (h1, t)) :
    t = e := by
  unfold generate_item at hok
  split at hok
  · exact absurd hok (by simp)
  · split at hok
    · split at hok
      · exact absurd hok (by simp)
      · next t2 hct =>
        simp only [Except.ok.injEq, Prod.mk.injEq] at hok
        exact hok.2 ▸ ((check_type_some_iff ..).mp hct).2
    · split at hok
      · split at hok
        · exact absurd hok (by simp)
        · next t2 hct =>
          simp only [Except.ok.injEq, Prod.mk.injEq] at hok
          exact hok.2 ▸ ((check_type_some_iff ..).mp hct).2
      · split at hok
        · split at hok
          · exact absurd hok (by simp)
          · next t2 hct =>
            simp only [Except.ok.injEq, Prod.mk.injEq] at hok
            exact hok.2 ▸ ((check_type_some_iff ..).mp hct).2
        · split at hok
          · split at hok
            · exact absurd hok (by simp)
            · next t2 hct =>
              simp only [Except.ok.injEq, Prod.mk.injEq] at hok
              exact hok.2 ▸ ((check_type_some_iff ..).mp hct).2
          · exact absurd hok (by simp)

/-- A successfully checked row never changes a set expected type. -/
theorem generate_row_some_expected {tplC tplW : Registry}
    {dat : List (Str × Str)} :
    ∀ {items : List Ref} {h : HarnessState} {e : CompTypeTag}
      {h1 : HarnessState} {e1 : Option CompTypeTag},
      generate_row tplC tplW dat h (some e) items = .ok (h1, e1) →
      e1 = some e := by
  intro items
  induction items with
  | nil =>
    intro h e h1 e1 hok
    rw [generate_row] at hok
    simp only [Except.ok.injEq, Prod.mk.injEq] at hok
    exact hok.2.symm
  | cons item rest ih =>
    intro h e h1 e1 hok
    rw [generate_row] at hok
    split at hok
    · exact absurd hok (by simp)
    · next h2 t hitem =>
      obtain rfl := generate_item_some_expected hitem
      exact ih hok

/-- Along a successful pass with a set expected type, row i is checked
against the i-th flip of it and leaves it unchanged. -/
theorem generate_pass_flips {tplC tplW : Registry} {dat : List (Str × Str)} :
    ∀ {rows : List (List Ref)} {h : HarnessState} {e : CompTypeTag}
      {out : HarnessState × Option CompTypeTag},
      generate_pass tplC tplW dat h (some e) rows = .ok out →
      ∀ i (hi : i < rows.length),
        ∃ h2 res, generate_row tplC tplW dat h2 (some (flipIter i e))
            (rows.get ⟨i, hi⟩) = .ok res ∧
          res.2 = some (flipIter i e) := by
  intro rows
  induction rows with
  | nil =>
    intro h e out hok i hi
    simp at hi
  | cons r rest ih =>
    intro h e out hok i hi
    rw [generate_pass] at hok
    split at hok
    · exact absurd hok (by simp)
    · rename_i h1 e1 hrow
      cases e1 with
      | none => exact absurd hok (by simp)
      | some t =>
        obtain rfl : t = e :=
          Option.some.inj (generate_row_some_expected hrow)
        match i with
        | 0 => exact ⟨h, (h1, some t), hrow, rfl⟩
        | i + 1 => exact ih hok i (by simpa using hi)

/-- C2 (amended): within one connection set the expected component type
is fixed by the first row (either type may start) and strictly
alternates afterwards; a row item whose actual type differs from the
expected type fails with the type-alternation error naming the offending
designator and template (and a successfully checked item's type equals
the expected type); in particular the set [["CAB1:"], ["CAB2:"]] with
both tokens resolving to cable templates fails naming the second,
auto-generated designator __CAB2_1 and template CAB2 (the bare-string
set ["CAB1:", "CAB2:"] never reaches the type check, see the
counterexample). -/
theorem type_alternation :
    (∀ (d t : Str) (a : CompTypeTag), check_type none d t a = .ok a) ∧
    (∀ (e : CompTypeTag) (d t : Str) (a x : CompTypeTag),
      check_type (some e) d t a = .ok x ↔ a = e ∧ x = e) ∧
    (∀ (e : CompTypeTag) (d t : Str) (a : CompTypeTag), a ≠ e →
      check_type (some e) d t a =
        .error (.typeAlternationViolation d t e a)) ∧
    (∀ (tplC tplW : Registry) (dat : List (Str × Str)) (h : HarnessState)
        (r0 : List Ref) (rest : List (List Ref))
        (out : HarnessState × Option CompTypeTag),
      generate_pass tplC tplW dat h none (r0 :: rest) = .ok out →
      ∃ t0 h1, generate_row tplC tplW dat h none r0 = .ok (h1, some t0) ∧
        ∀ i (hi : i < rest.length),
          ∃ h2 res, generate_row tplC tplW dat h2
              (some (flipIter (i + 1) t0)) (rest.get ⟨i, hi⟩) = .ok res ∧
            res.2 = some (flipIter (i + 1) t0)) ∧
    process_connection_set demoTplC demoTplW ':' ⟨[], []⟩ ⟨[], [], []⟩
        [.list [chars "CAB1:"], .list [chars "CAB2:"]] =
      .error (.typeAlternationViolation (chars "__CAB2_1") (chars "CAB2")
        .connector .cable) := by
  refine ⟨check_type_none_ok, check_type_some_iff, check_type_some_mismatch,
    ?_, by rfl⟩
  intro tplC tplW dat h r0 rest out hok
  rw [generate_pass] at hok
  split at hok
  · exact absurd hok (by simp)
  · rename_i h1 e1 hrow
    cases e1 with
    | none => exact absurd hok (by simp)
    | some t0 => exact ⟨t0, h1, hrow, generate_pass_flips hok⟩

/-- C2 (counterexample): the connection set ["CAB1:", "CAB2:"] of two
bare string tokens fails with the missing-connection-count error (no
entry reveals a count), not with the type-alternation error the claim
states. -/
theorem scenarioB_strings_missing_count :
    process_connection_set demoTplC demoTplW ':' ⟨[], []⟩ ⟨[], [], []⟩
      [.str (chars "CAB1:"), .str (chars "CAB2:")] =
      .error .missingConnectionCount := rfl

/-- C2 witness: a concrete two-row pass starting with a connector. -/
theorem type_alternation_witness :
    ∃ t0 h1, generate_row demoTplC demoTplW
        [(chars "P1", chars "DB9"), (chars "W", chars "CAB1")]
        ⟨[], [], []⟩ none [(chars "P1", 1)] = .ok (h1, some t0) ∧
      ∀ i (hi : i < ([[(chars "W", 1)]] : List (List Ref)).length),
        ∃ h2 res, generate_row demoTplC demoTplW
            [(chars "P1", chars "DB9"), (chars "W", chars "CAB1")] h2
            (some (flipIter (i + 1) t0))
            (([[(chars "W", 1)]] : List (List Ref)).get ⟨i, hi⟩) = .ok res ∧
          res.2 = some (flipIter (i + 1) t0) :=
  type_alternation.2.2.2.1 demoTplC demoTplW
    [(chars "P1", chars "DB9"), (chars "W", chars "CAB1")] ⟨[], [], []⟩
    [(chars "P1", 1)] [[(chars "W", 1)]]
    (⟨[(chars "P1", db9Attribs)], [(chars "W", cab1Attribs)], []⟩,
      some .connector) (by rfl)

/-! The connect pass: one record per cable position, null endpoints only
at chain boundaries. -/

theorem connect_entry_length_aux (C : List Str) (entry : List Ref) :
    ∀ (l : List Ref) (n : Nat),
      ((List.enumFrom n l).filterMap (fun p =>
        if p.2.1 ∈ C then some (mkConnection entry p.1 p.2)
        else none)).length =
      (l.filter (fun r => decide (r.1 ∈ C))).length := by
  intro l
  induction l with
  | nil => intro n; rfl
  | cons x xs ih =>
    intro n
    have hE : List.enumFrom n (x :: xs) = (n, x) :: List.enumFrom (n + 1) xs :=
      rfl
    rw [hE, List.filterMap_cons, List.filter_cons]
    by_cases hq : x.1 ∈ C <;> simp [hq, ih]

theorem connect_entry_mem (C : List Str) (entry : List Ref) (c : Connection) :
    c ∈ connect_pass_entry C entry ↔
      ∃ i, ∃ hi : i < entry.length, (entry.get ⟨i, hi⟩).1 ∈ C ∧
        c = mkConnection entry i (entry.get ⟨i, hi⟩) := by
  unfold connect_pass_entry
  rw [List.mem_filterMap]
  constructor
  · rintro ⟨p, hpmem, hpeq⟩
    by_cases hq : p.2.1 ∈ C
    · rw [if_pos hq] at hpeq
      have hg := List.mem_enum_iff_getElem?.mp hpmem
      rw [List.getElem?_eq_some] at hg
      obtain ⟨hlt, hget⟩ := hg
      have hgp : entry.get ⟨p.1, hlt⟩ = p.2 := by
        rw [List.get_eq_getElem]
        exact hget
      refine ⟨p.1, hlt, ?_, ?_⟩
      · rw [hgp]; exact hq
      · rw [hgp]; exact (Option.some.inj hpeq).symm
    · rw [if_neg hq] at hpeq
      exact absurd hpeq (by simp)
  · rintro ⟨i, hi, hmem, rfl⟩
    refine ⟨(i, entry.get ⟨i, hi⟩), ?_, ?_⟩
    · rw [List.mem_enum_iff_getElem?]
      rw [List.get_eq_getElem]
      exact List.getElem?_eq_getElem hi
    · rw [if_pos hmem]

/-- C8: the connect pass over one parallel path emits exactly one
Connection record per position whose designator is a live cable (one per
(path, cable position) pair, in order); every emitted record comes from
such a position; and in any emitted record the from endpoint is null iff
the cable is at the first chain position, the to endpoint is null iff it
is at the last, and every interior position carries both neighbouring
(designator, pin) references. -/
theorem connect_records (C : List Str) (entry : List Ref) :
    (connect_pass_entry C entry).length =
      (entry.filter (fun r => decide (r.1 ∈ C))).length ∧
    (∀ c : Connection, c ∈ connect_pass_entry C entry ↔
      ∃ i, ∃ hi : i < entry.length, (entry.get ⟨i, hi⟩).1 ∈ C ∧
        c = mkConnection entry i (entry.get ⟨i, hi⟩)) ∧
    (∀ (i : Nat) (item : Ref),
      ((mkConnection entry i item).fromRef = none ↔ i = 0) ∧
      ((mkConnection entry i item).toRef = none ↔ i = entry.length - 1) ∧
      (0 < i → (mkConnection entry i item).fromRef =
        some (entry.getD (i - 1) defaultRef)) ∧
      (i < entry.length - 1 → (mkConnection entry i item).toRef =
        some (entry.getD (i + 1) defaultRef))) := by
  refine ⟨connect_entry_length_aux C entry entry 0,
    connect_entry_mem C entry, ?_⟩
  intro i item
  refine ⟨?_, ?_, ?_, ?_⟩
  · by_cases h0 : i = 0 <;> simp [mkConnection, h0]
  · by_cases hl : i = entry.length - 1 <;> simp [mkConnection, hl]
  · intro hpos
    rw [mkConnection]
    simp [Nat.pos_iff_ne_zero.mp hpos]
  · intro hlt
    rw [mkConnection]
    simp [show i ≠ entry.length - 1 by omega]

/-- C8 witness: the single cable position of the path
[(P1,1), (W,5), (P2,1)] with W the only live cable. -/
theorem connect_records_witness :
    (connect_pass_entry [chars "W"]
        [(chars "P1", 1), (chars "W", 5), (chars "P2", 1)]).length =
      (([(chars "P1", 1), (chars "W", 5), (chars "P2", 1)] : List Ref).filter
        (fun r => decide (r.1 ∈ [chars "W"]))).length ∧
    mkConnection [(chars "P1", 1), (chars "W", 5), (chars "P2", 1)] 1
        (chars "W", 5) ∈ connect_pass_entry [chars "W"]
        [(chars "P1", 1), (chars "W", 5), (chars "P2", 1)] := by
  have h := connect_records [chars "W"]
    [(chars "P1", 1), (chars "W", 5), (chars "P2", 1)]
  exact ⟨h.1, (h.2.1 _).mpr ⟨1, by decide, by decide, rfl⟩⟩

/-! The connections section after a build: in-place overwriting,
modelled as explicit state. -/

/-- The final, overwritten content of the connections section: each
original connection set was replaced, in order, by exactly the record
rows its normalization produced, with the resolver state threaded
through the sets. -/
def SetsNormalized (sep : Char) :
    ResolverState → List (List Entry) → List (List (List Ref)) → Prop
  | _, [], outs => outs = []
  | rst, cs :: sets, outs =>
    ∃ rst1 rows outs1, outs = rows :: outs1 ∧
      normalize_set sep rst cs = .ok (rst1, rows) ∧
      SetsNormalized sep rst1 sets outs1

/-- C10: the loop of line 206 works on `yaml_data["connections"]` itself
through the alias taken on line 151 and overwrites each entry in place;
modelling that mutation as explicit state, a successful build leaves the
connections section holding, for each original connection set in order,
the expanded {designator: pin} record rows produced by normalization
(raw tokens replaced by resolved designators, untransposed - the
transposition on line 302 rebinds only the loop variable). -/
theorem connections_overwritten (tplC tplW : Registry) (sep : Char)
    (rst : ResolverState) (h : HarnessState) (sets : List (List Entry))
    (rst2 : ResolverState) (h2 : HarnessState)
    (outs : List (List (List Ref)))
    (hok : parse_connection_sets tplC tplW sep rst h sets =
      .ok (rst2, h2, outs)) :
    SetsNormalized sep rst sets outs := by
  induction sets generalizing rst h outs with
  | nil =>
    rw [parse_connection_sets] at hok
    simp only [Except.ok.injEq, Prod.mk.injEq] at hok
    exact hok.2.2.symm
  | cons cs rest ih =>
    rw [parse_connection_sets] at hok
    split at hok
    · exact absurd hok (by simp)
    · rename_i rst1 h1 rows hproc
      split at hok
      · exact absurd hok (by simp)
      · rename_i rstx hx outsx hrest
        simp only [Except.ok.injEq, Prod.mk.injEq] at hok
        obtain ⟨rfl, rfl, rfl⟩ := hok
        unfold process_connection_set at hproc
        split at hproc
        · exact absurd hproc (by simp)
        · rename_i rstn rowsn hnorm
          split at hproc
          · exact absurd hproc (by simp)
          · rename_i hgen egen hg
            simp only [Except.ok.injEq, Prod.mk.injEq] at hproc
            obtain ⟨rfl, -, rfl⟩ := hproc
            exact ⟨rstn, rowsn, outsx, rfl, hnorm, ih rstn h1 outsx hrest⟩

/-- C10 witness: the configuration state after the Scenario A build. -/
theorem connections_overwritten_witness :
    SetsNormalized ':' ⟨[], []⟩ [scenarioASet]
      [[[(chars "P1", 1), (chars "P1", 1), (chars "P1", 1)],
        [(chars "__CAB1_1", 1), (chars "__CAB1_1", 2), (chars "__CAB1_1", 3)],
        [(chars "P2", 1), (chars "P2", 1), (chars "P2", 1)]]] :=
  connections_overwritten demoTplC demoTplW ':' ⟨[], []⟩ ⟨[], [], []⟩
    [scenarioASet]
    ⟨[(chars "P1", chars "DB9"), (chars "__CAB1_1", chars "CAB1"),
      (chars "P2", chars "DB9")], [(chars "CAB1", 1)]⟩
    ⟨[(chars "P1", db9Attribs), (chars "P2", db9Attribs)],
     [(chars "__CAB1_1", cab1Attribs)],
     [⟨some (chars "P1", 1), (chars "__CAB1_1", 1), some (chars "P2", 1)⟩,
      ⟨some (chars "P1", 1), (chars "__CAB1_1", 2), some (chars "P2", 1)⟩,
      ⟨some (chars "P1", 1), (chars "__CAB1_1", 3), some (chars "P2", 1)⟩]⟩
    [[[(chars "P1", 1), (chars "P1", 1), (chars "P1", 1)],
      [(chars "__CAB1_1", 1), (chars "__CAB1_1", 2), (chars "__CAB1_1", 3)],
      [(chars "P2", 1), (chars "P2", 1), (chars "P2", 1)]]] (by rfl)

end WireViz
